import Mathlib

/-!
Verification of the dashboard resource-inventory pipeline.

Shallow embedding of the CSV extraction/reconciliation scripts under
`packages/dashboard/src/app/resources/`:

* `update-resources-csv-old.py` — `read_existing_csv`, `merge_resources`,
  `CSVValidator`, `main`;
* `coderef/merge-and-dedupe.py` — `is_duplicate_assistant_command`,
  `merge_csvs`, `write_csv`;
* `fix-csv.py` — `find_mcp_command`, `fix_csv`;
* `update-resources-csv.py` — `TimestampExtractor.get_timestamps`,
  `ResourceExtractor.generate_csv`;
* `coderef/build-source-of-truth.py` — `ResourceScanner.add_resource`,
  `ResourceScanner.write_csv`.

Filesystem, git and CSV I/O are modelled as explicit inputs (lists of rows,
oracle functions); the pure row-manipulation logic is translated directly.
-/

namespace Dashboard

/-! ## Python `dict` model

Python dicts preserve insertion order; assigning to an existing key updates
the value in place (the key keeps its original position), assigning to a new
key appends it at the end.  We model a dict as an insertion-ordered
association list with exactly these semantics. -/

section PyDictDefs

variable {K V : Type} [DecidableEq K]

/-- `d[k] = v` on a Python dict: update in place if `k` is present,
otherwise append `(k, v)` at the end. -/
def pyInsert : List (K × V) → K → V → List (K × V)
  | [], k, v => [(k, v)]
  | (k', v') :: t, k, v =>
    if k' = k then (k, v) :: t else (k', v') :: pyInsert t k v

/-- `list(d.keys())`: keys in insertion order. -/
def pyKeys (d : List (K × V)) : List K := d.map Prod.fst

/-- `list(d.values())`: values in insertion order. -/
def pyValues (d : List (K × V)) : List V := d.map Prod.snd

/-- A sequence of Python dict assignments `for (k, v) in l: d[k] = v`. -/
def insertAllPairs (d : List (K × V)) (l : List (K × V)) : List (K × V) :=
  l.foldl (fun d kv => pyInsert d kv.1 kv.2) d

end PyDictDefs

/-! ## `update-resources-csv-old.py` — rows, reconciliation, validation -/

/-- One in-memory row of the legacy 7-column schema
`Type, Server, Category, Name, Description, Status, Path`
(a `Tuple[str, str, str, str, str, str, str]` in the source). -/
structure Row where
  type : String
  server : String
  category : String
  name : String
  description : String
  status : String
  path : String
deriving DecidableEq

/-- The Identity Key `(row[0], row[1], row[3])`, i.e. (Type, Server, Name). -/
def rowKey (r : Row) : String × String × String := (r.type, r.server, r.name)

/-- A `Row` as the raw list of its 7 fields (the CSV line it is written as). -/
def toRaw (r : Row) : List String :=
  [r.type, r.server, r.category, r.name, r.description, r.status, r.path]

/-- `tuple(row)` for a raw CSV row, reading the 7 schema positions. -/
def rowFromList (r : List String) : Row :=
  ⟨r.getD 0 "", r.getD 1 "", r.getD 2 "", r.getD 3 "", r.getD 4 "", r.getD 5 "", r.getD 6 ""⟩

/-- Loop body of `read_existing_csv` (lines 444–447): a raw row is stored only
when `len(row) == 7`, keyed by `(row[0], row[1], row[3])`; rows of any other
length are skipped silently. -/
def read_existing_step (d : List ((String × String × String) × Row))
    (r : List String) : List ((String × String × String) × Row) :=
  if r.length = 7 then pyInsert d (r.getD 0 "", r.getD 1 "", r.getD 3 "") (rowFromList r) else d

/-- `read_existing_csv` (lines 430–456), minus file I/O and encoding
detection: fold the raw rows of the prior table into a dict keyed by the
Identity Key. -/
def read_existing_csv (raw : List (List String)) :
    List ((String × String × String) × Row) :=
  raw.foldl read_existing_step []

/-- `merge_resources` (lines 459–472): start from the existing entries, then
override with the extracted entries wholesale (`merged[key] = row`), and
return `list(merged.values())`. -/
def merge_resources (extracted : List Row)
    (existing_csv : List ((String × String × String) × Row)) : List Row :=
  let merged := existing_csv.foldl (fun d kv => pyInsert d kv.1 kv.2) []
  let merged2 := extracted.foldl (fun d row => pyInsert d (rowKey row) row) merged
  pyValues merged2

/-- `VALID_TYPES` (line 23). -/
def VALID_TYPES : List String :=
  ["Tool", "Command", "Tab", "Script", "Workflow", "Output", "Validator", "Schema"]

/-- `VALID_STATUS` (line 24). -/
def VALID_STATUS : List String := ["active", "deprecated"]

/-- `CSVValidator._check_column_count` (lines 370–374).  In-memory rows are
7-tuples (`Row` has exactly 7 fields), so each row's raw form is checked
against the 7-column schema. -/
def check_column_count (resources : List Row) : List String :=
  resources.filterMap fun r =>
    if (toRaw r).length ≠ 7 then some "Expected 7 columns" else none

/-- Loop of `CSVValidator._check_duplicates` (lines 376–383): one error per
row whose Identity Key was already seen; every key is added to `seen`. -/
def check_duplicates_go (seen : List (String × String × String)) :
    List Row → List String
  | [] => []
  | r :: rest =>
    if rowKey r ∈ seen then
      ("Duplicate entry: " ++ r.type ++ " - " ++ r.server ++ " - " ++ r.name)
        :: check_duplicates_go (rowKey r :: seen) rest
    else check_duplicates_go (rowKey r :: seen) rest

/-- `CSVValidator._check_duplicates` (lines 376–383). -/
def check_duplicates (resources : List Row) : List String :=
  check_duplicates_go [] resources

/-- `CSVValidator._check_valid_types` (lines 385–389). -/
def check_valid_types (resources : List Row) : List String :=
  resources.filterMap fun r =>
    if r.type ∈ VALID_TYPES then none else some ("Invalid type: " ++ r.type)

/-- `CSVValidator._check_valid_status` (lines 391–395). -/
def check_valid_status (resources : List Row) : List String :=
  resources.filterMap fun r =>
    if r.status ∈ VALID_STATUS then none else some ("Invalid status: " ++ r.status)

/-- `CSVValidator._check_row_count` (lines 397–405): `expected = 235`,
`actual = len(self.resources) + 1`; out-of-band counts append an error to
`self.errors` exactly like every other check. -/
def check_row_count (resources : List Row) : List String :=
  if resources.length + 1 < 235 - 50 then ["Row count too low: expected ~235"]
  else if resources.length + 1 > 235 + 100 then ["Row count too high: expected ~235"]
  else []

/-- `CSVValidator.validate` (lines 360–368): the concatenation of the errors
recorded by the five checks, in source order. -/
def validate_errors (resources : List Row) : List String :=
  check_column_count resources ++ check_duplicates resources ++
    check_valid_types resources ++ check_valid_status resources ++
    check_row_count resources

/-- `CSVValidator.validate`'s return value: `len(self.errors) == 0`. -/
def validate (resources : List Row) : Bool :=
  (validate_errors resources).isEmpty

/-- Exit code of `main` (lines 521–535) as a function of whether
`--validate`/`--validate-only` was requested: `sys.exit(1)` exactly when
validation was requested and `validate()` returned `False`. -/
def main_validate_code (validateFlag : Bool) (resources : List Row) : Nat :=
  if validateFlag && !(validate resources) then 1 else 0

/-! ## `coderef/merge-and-dedupe.py` — merge of the two tables -/

/-- A row of the 9-column schema
`Type, Server, Category, Name, Description, Status, Path, Created, LastUpdated`
(a `csv.DictReader` dict in `merge-and-dedupe.py` and
`build-source-of-truth.py`, a 9-tuple in `update-resources-csv.py`). -/
structure MRow where
  type : String
  server : String
  category : String
  name : String
  description : String
  status : String
  path : String
  created : String
  lastUpdated : String
deriving DecidableEq

/-- The Identity Key `(row['Type'], row['Server'], row['Name'])`. -/
def mkey (r : MRow) : String × String × String := (r.type, r.server, r.name)

/-- `is_duplicate_assistant_command` (lines 40–51). -/
def is_duplicate_assistant_command (row : MRow) (mcp_commands : List MRow) : Bool :=
  if row.type ≠ "Command" ∨ row.server ≠ "assistant" then false
  else mcp_commands.any fun m => m.name == row.name && m.server != "assistant"

/-- `tools_from_old` (line 64): `[r for r in old_resources if r['Type'] == 'Tool']`. -/
def tools_from_old (old : List MRow) : List MRow :=
  old.filter fun r => r.type == "Tool"

/-- `mcp_commands_from_old` (line 65). -/
def mcp_commands_from_old (old : List MRow) : List MRow :=
  old.filter fun r => r.type == "Command" && r.server != "assistant"

/-- The filtering loop of `merge_csvs` (lines 71–82): a scanned row is kept
unless it is a duplicate assistant command or (`continue` on line 80–81) its
Type is `Command` at all. -/
def scanned_filtered (scanned mcp_commands : List MRow) : List MRow :=
  scanned.filter fun row =>
    !(is_duplicate_assistant_command row mcp_commands) && !(row.type == "Command")

/-- The final de-duplication loop of `merge_csvs` (lines 91–99): walk the
merged list, keeping a row only when its Identity Key is `not in seen`. -/
def dedupeGo (seen : List (String × String × String)) : List MRow → List MRow
  | [] => []
  | r :: rest =>
    if mkey r ∈ seen then dedupeGo seen rest
    else r :: dedupeGo (mkey r :: seen) rest

/-- The de-duplication pass started with an empty `seen` set. -/
def dedupe (rows : List MRow) : List MRow := dedupeGo [] rows

/-- `merge_csvs` (lines 54–112), minus file reading and printing:
`merged = tools_from_old + mcp_commands_from_old + scanned_filtered`,
then the de-duplication pass. -/
def merge_csvs (scanned old : List MRow) : List MRow :=
  dedupe (tools_from_old old ++ mcp_commands_from_old old ++
    scanned_filtered scanned (mcp_commands_from_old old))

/-! ## Output ordering (three writers)

`merge-and-dedupe.py write_csv` (line 118), `update-resources-csv.py
ResourceExtractor.generate_csv` (line 437) and `build-source-of-truth.py
ResourceScanner.write_csv` (line 543) all sort by the key tuple
`(Type, Server, Category, Name)`.  Python compares tuples of strings
lexicographically, strings by code point (case-sensitively); `sorted`/`.sort`
are stable, so a stable merge sort by the same order is a faithful model. -/

/-- The Python sort key `(x['Type'], x['Server'], x['Category'], x['Name'])`
with Python's lexicographic tuple comparison. -/
def rowSortKey (r : MRow) : Lex (String × Lex (String × Lex (String × String))) :=
  toLex (r.type, toLex (r.server, toLex (r.category, r.name)))

/-- Boolean comparison used by the model of `sorted(..., key=...)`. -/
def rowLe (a b : MRow) : Bool := decide (rowSortKey a ≤ rowSortKey b)

/-- `write_csv`'s sort in `merge-and-dedupe.py` (lines 115–123). -/
def mad_write_csv_rows (resources : List MRow) : List MRow :=
  resources.mergeSort rowLe

/-- `ResourceExtractor.generate_csv`'s sort in `update-resources-csv.py`
(line 437). -/
def v2_generate_csv_rows (resources : List MRow) : List MRow :=
  resources.mergeSort rowLe

/-- `ResourceScanner.write_csv`'s sort in `build-source-of-truth.py`
(line 543). -/
def sot_write_csv_rows (resources : List MRow) : List MRow :=
  resources.mergeSort rowLe

/-! ## `fix-csv.py` — alias reconciliation pass -/

/-- `MCP_SERVERS` (lines 18–23): the fixed set of origins whose same-named
commands make an assistant command an alias. -/
def MCP_SERVERS : List String :=
  ["coderef-docs", "coderef-personas", "coderef-testing", "coderef-workflow"]

/-- `find_mcp_command` (lines 63–72): first data row with at least 7 fields
whose Type is `Command`, whose Name matches, and whose Server is in
`MCP_SERVERS`; returns `(server, category, description)`, or three empty
strings when no row matches. -/
def find_mcp_command : List (List String) → String → String × String × String
  | [], _ => ("", "", "")
  | row :: rest, command_name =>
    if 7 ≤ row.length ∧ row.getD 0 "" = "Command" ∧ row.getD 3 "" = command_name ∧
        row.getD 1 "" ∈ MCP_SERVERS then
      (row.getD 1 "", row.getD 2 "", row.getD 4 "")
    else find_mcp_command rest command_name

/-- One iteration of the `fix_csv` loop (lines 94–133).  `cmdfile` is the
oracle for `ASSISTANT_COMMANDS / f"{name[1:]}.md"`: `none` when the file does
not exist, `some d` when it exists and `read_command_description` returns `d`
(`""` on a read error).  Rows with fewer than 7 fields are appended
unchanged; all other rows are rebuilt as exactly the 7 unpacked fields. -/
def fix_row (data_rows : List (List String)) (cmdfile : String → Option String)
    (row : List String) : List String :=
  if row.length < 7 then row
  else if row.getD 0 "" = "Command" ∧ row.getD 1 "" = "assistant" then
    if (find_mcp_command data_rows (row.getD 3 "")).1 ≠ "" then
      [row.getD 0 "", row.getD 1 "",
       (find_mcp_command data_rows (row.getD 3 "")).2.1,
       row.getD 3 "",
       (if row.getD 4 "" = "" then
          (if (find_mcp_command data_rows (row.getD 3 "")).2.2 ≠ "" then
             "Alias for " ++ (find_mcp_command data_rows (row.getD 3 "")).1 ++ " - " ++
               (find_mcp_command data_rows (row.getD 3 "")).2.2
           else "Alias for " ++ (find_mcp_command data_rows (row.getD 3 "")).1 ++ " command")
        else row.getD 4 ""),
       "alias", row.getD 6 ""]
    else
      [row.getD 0 "", row.getD 1 "", row.getD 2 "", row.getD 3 "",
       (if row.getD 4 "" = "" then
          (match cmdfile (row.getD 3 "") with
           | some d => d
           | none => row.getD 4 "")
        else row.getD 4 ""),
       row.getD 5 "", row.getD 6 ""]
  else
    [row.getD 0 "", row.getD 1 "", row.getD 2 "", row.getD 3 "", row.getD 4 "",
     row.getD 5 "", row.getD 6 ""]

/-- `fix_csv` (lines 75–142), minus file I/O: the data rows mapped through the
fix loop (lookups run over the original `data_rows`, as in the source). -/
def fix_csv (data_rows : List (List String)) (cmdfile : String → Option String) :
    List (List String) :=
  data_rows.map (fix_row data_rows cmdfile)

/-! ## Timestamp resolution -/

/-- Python string truthiness for an `Optional[str]`: `None` and `""` are
falsy. -/
def truthy : Option String → Bool
  | none => false
  | some s => !(s == "")

/-- Environment seen by `TimestampExtractor.get_timestamps`
(`update-resources-csv.py`): results of the two git queries, the front-matter
date, and the filesystem timestamps (which always yield a string). -/
structure TsEnv where
  gitCreated : Option String
  gitUpdated : Option String
  yamlDate : Option String
  fsCreated : String
  fsUpdated : String

/-- `TimestampExtractor.get_timestamps` (lines 115–138): `created` falls back
from git to YAML front-matter to the filesystem; `updated` falls back from
git straight to the filesystem. -/
def get_timestamps (env : TsEnv) : String × String :=
  let created : Option String := env.gitCreated
  let updated : Option String := env.gitUpdated
  let created := if truthy created then created
    else (if truthy env.yamlDate then env.yamlDate else created)
  let created := if truthy created then created else some env.fsCreated
  let updated := if truthy updated then updated else some env.fsUpdated
  (created.getD "", updated.getD "")

/-- Environment seen by `ResourceScanner.add_resource`
(`build-source-of-truth.py`): the git pair and the filesystem pair. -/
structure SotEnv where
  gitCreated : Option String
  gitUpdated : Option String
  fsCreated : String
  fsUpdated : String

/-- The timestamp logic of `ResourceScanner.add_resource` (lines 70–90):
`created, updated = get_git_timestamps(...)`, and
`if not created or not updated:` the *pair* is replaced by the filesystem
pair (the final `or ''` guards are identities on the resulting strings). -/
def add_resource_timestamps (env : SotEnv) : String × String :=
  if !(truthy env.gitCreated) || !(truthy env.gitUpdated) then
    (env.fsCreated, env.fsUpdated)
  else (env.gitCreated.getD "", env.gitUpdated.getD "")

/-! ## Lemmas about the Python dict model -/

section PyDictLemmas

variable {K V : Type} [DecidableEq K]

theorem pyKeys_pyInsert_of_mem {d : List (K × V)} {k : K} (v : V)
    (h : k ∈ pyKeys d) : pyKeys (pyInsert d k v) = pyKeys d := by
  induction d with
  | nil => simp [pyKeys] at h
  | cons hd t ih =>
    obtain ⟨k', v'⟩ := hd
    by_cases hk : k' = k
    · simp [pyInsert, hk, pyKeys]
    · simp only [pyKeys, List.map_cons, List.mem_cons] at h
      rcases h with h | h
      · exact absurd h.symm hk
      · simp only [pyInsert, if_neg hk, pyKeys, List.map_cons]
        have := ih h
        simp only [pyKeys] at this
        rw [this]

theorem pyInsert_of_not_mem {d : List (K × V)} {k : K} (v : V)
    (h : k ∉ pyKeys d) : pyInsert d k v = d ++ [(k, v)] := by
  induction d with
  | nil => simp [pyInsert]
  | cons hd t ih =>
    obtain ⟨k', v'⟩ := hd
    simp only [pyKeys, List.map_cons, List.mem_cons] at h
    push_neg at h
    have hne : ¬ k' = k := fun hh => h.1 hh.symm
    simp [pyInsert, hne, ih h.2]

theorem pyKeys_nodup_pyInsert {d : List (K × V)} {k : K} (v : V)
    (h : (pyKeys d).Pairwise (· ≠ ·)) :
    (pyKeys (pyInsert d k v)).Pairwise (· ≠ ·) := by
  by_cases hk : k ∈ pyKeys d
  · rwa [pyKeys_pyInsert_of_mem v hk]
  · rw [pyInsert_of_not_mem v hk]
    simp only [pyKeys, List.map_append, List.map_cons, List.map_nil]
    rw [List.pairwise_append]
    refine ⟨h, by simp, ?_⟩
    intro a ha b hb
    simp only [List.mem_singleton] at hb
    subst hb
    exact fun hak => hk (hak ▸ ha)

theorem mem_pyInsert {d : List (K × V)} {k : K} {v : V} {kv : K × V}
    (h : kv ∈ pyInsert d k v) : kv ∈ d ∨ kv = (k, v) := by
  induction d with
  | nil => simp [pyInsert] at h; simp [h]
  | cons hd t ih =>
    obtain ⟨k', v'⟩ := hd
    by_cases hk : k' = k
    · simp only [pyInsert, if_pos hk, List.mem_cons] at h
      rcases h with h | h
      · exact Or.inr h
      · exact Or.inl (List.mem_cons_of_mem _ h)
    · simp only [pyInsert, if_neg hk, List.mem_cons] at h
      rcases h with h | h
      · exact Or.inl (h ▸ List.mem_cons_self _ _)
      · rcases ih h with h' | h'
        · exact Or.inl (List.mem_cons_of_mem _ h')
        · exact Or.inr h'

theorem pyInsert_mem_eq {d : List (K × V)} {k : K} {v : V}
    (hnd : (pyKeys d).Pairwise (· ≠ ·)) (h : (k, v) ∈ d) :
    pyInsert d k v = d := by
  induction d with
  | nil => simp at h
  | cons hd t ih =>
    obtain ⟨k', v'⟩ := hd
    simp only [List.mem_cons] at h
    simp only [pyKeys, List.map_cons, List.pairwise_cons] at hnd
    by_cases hk : k' = k
    · subst hk
      rcases h with h | h
      · simp only [Prod.mk.injEq] at h
        simp [pyInsert, h.2]
      · exact absurd rfl (hnd.1 k' (by simpa using List.mem_map_of_mem Prod.fst h))
    · rcases h with h | h
      · exact absurd (congrArg Prod.fst h).symm hk
      · simp [pyInsert, hk, ih hnd.2 h]

theorem insertAllPairs_disjoint {l d : List (K × V)}
    (hl : (l.map Prod.fst).Pairwise (· ≠ ·))
    (hd : ∀ k ∈ pyKeys d, k ∉ l.map Prod.fst) :
    insertAllPairs d l = d ++ l := by
  induction l generalizing d with
  | nil => simp [insertAllPairs]
  | cons kv t ih =>
    obtain ⟨k, v⟩ := kv
    simp only [List.map_cons, List.pairwise_cons] at hl
    have hknot : k ∉ pyKeys d := fun hk => hd k hk (by simp)
    have step : pyInsert d k v = d ++ [(k, v)] := pyInsert_of_not_mem v hknot
    simp only [insertAllPairs, List.foldl_cons] at ih ⊢
    rw [step, ih hl.2]
    · simp
    · intro k' hk' hk't
      simp only [pyKeys, List.map_append, List.mem_append] at hk'
      rcases hk' with hk' | hk'
      · exact hd k' hk' (List.mem_cons_of_mem _ hk't)
      · simp only [List.map_cons, List.map_nil, List.mem_singleton] at hk'
        subst hk'
        exact hl.1 _ hk't rfl

theorem insertAllPairs_absorb {l d : List (K × V)}
    (hnd : (pyKeys d).Pairwise (· ≠ ·)) (hl : ∀ kv ∈ l, kv ∈ d) :
    insertAllPairs d l = d := by
  induction l with
  | nil => rfl
  | cons kv t ih =>
    obtain ⟨k, v⟩ := kv
    simp only [insertAllPairs, List.foldl_cons] at ih ⊢
    rw [pyInsert_mem_eq hnd (hl _ (List.mem_cons_self _ _))]
    exact ih fun kv hkv => hl kv (List.mem_cons_of_mem _ hkv)

theorem pyKeys_nodup_insertAllPairs {l d : List (K × V)}
    (hnd : (pyKeys d).Pairwise (· ≠ ·)) :
    (pyKeys (insertAllPairs d l)).Pairwise (· ≠ ·) := by
  induction l generalizing d with
  | nil => exact hnd
  | cons kv t ih =>
    simp only [insertAllPairs, List.foldl_cons] at ih ⊢
    exact ih (pyKeys_nodup_pyInsert kv.2 hnd)

theorem insertAllPairs_forall {P : K × V → Prop} {l d : List (K × V)}
    (hd : ∀ kv ∈ d, P kv) (hl : ∀ kv ∈ l, P kv) :
    ∀ kv ∈ insertAllPairs d l, P kv := by
  induction l generalizing d with
  | nil => exact hd
  | cons kv t ih =>
    simp only [insertAllPairs, List.foldl_cons] at ih ⊢
    refine ih ?_ fun kv' hkv' => hl kv' (List.mem_cons_of_mem _ hkv')
    intro kv' hkv'
    rcases mem_pyInsert hkv' with h | h
    · exact hd kv' h
    · exact h ▸ hl _ (List.mem_cons_self _ _)

end PyDictLemmas

/-! ## Lemmas about the old pipeline's reconciliation -/

theorem read_existing_step_toRaw (d : List ((String × String × String) × Row))
    (r : Row) : read_existing_step d (toRaw r) = pyInsert d (rowKey r) r := rfl

theorem read_existing_foldl_map (T : List Row)
    (d : List ((String × String × String) × Row)) :
    (T.map toRaw).foldl read_existing_step d =
      insertAllPairs d (T.map fun r => (rowKey r, r)) := by
  induction T generalizing d with
  | nil => rfl
  | cons r t ih =>
    simp only [List.map_cons, List.foldl_cons, insertAllPairs] at ih ⊢
    rw [read_existing_step_toRaw]
    exact ih _

theorem merge_foldl_eq (extracted : List Row)
    (m : List ((String × String × String) × Row)) :
    extracted.foldl (fun d row => pyInsert d (rowKey row) row) m =
      insertAllPairs m (extracted.map fun r => (rowKey r, r)) := by
  induction extracted generalizing m with
  | nil => rfl
  | cons r t ih =>
    simp only [List.map_cons, List.foldl_cons, insertAllPairs] at ih ⊢
    exact ih _

theorem read_existing_entries_key (raw : List (List String))
    (d : List ((String × String × String) × Row))
    (hd : ∀ kv ∈ d, kv.1 = rowKey kv.2) :
    ∀ kv ∈ raw.foldl read_existing_step d, kv.1 = rowKey kv.2 := by
  induction raw generalizing d with
  | nil => exact hd
  | cons r t ih =>
    simp only [List.foldl_cons]
    refine ih _ ?_
    intro kv hkv
    unfold read_existing_step at hkv
    by_cases h7 : r.length = 7
    · rw [if_pos h7] at hkv
      rcases mem_pyInsert hkv with h | h
      · exact hd kv h
      · subst h; rfl
    · rw [if_neg h7] at hkv
      exact hd kv hkv

theorem read_existing_keys_nodup (raw : List (List String))
    (d : List ((String × String × String) × Row))
    (hd : (pyKeys d).Pairwise (· ≠ ·)) :
    (pyKeys (raw.foldl read_existing_step d)).Pairwise (· ≠ ·) := by
  induction raw generalizing d with
  | nil => exact hd
  | cons r t ih =>
    simp only [List.foldl_cons]
    refine ih _ ?_
    unfold read_existing_step
    by_cases h7 : r.length = 7
    · rw [if_pos h7]; exact pyKeys_nodup_pyInsert _ hd
    · rwa [if_neg h7]

/-! ## Lemmas about the merge-and-dedupe pass -/

theorem mem_of_mem_dedupeGo {seen : List (String × String × String)}
    {rows : List MRow} {r : MRow} (h : r ∈ dedupeGo seen rows) : r ∈ rows := by
  induction rows generalizing seen with
  | nil => simp [dedupeGo] at h
  | cons hd t ih =>
    unfold dedupeGo at h
    by_cases hs : mkey hd ∈ seen
    · rw [if_pos hs] at h
      exact List.mem_cons_of_mem _ (ih h)
    · rw [if_neg hs] at h
      rcases List.mem_cons.mp h with h | h
      · exact h ▸ List.mem_cons_self _ _
      · exact List.mem_cons_of_mem _ (ih h)

theorem dedupeGo_keys_nodup (rows : List MRow) :
    ∀ seen : List (String × String × String),
      ((dedupeGo seen rows).map mkey).Pairwise (· ≠ ·) ∧
        ∀ k ∈ (dedupeGo seen rows).map mkey, k ∉ seen := by
  induction rows with
  | nil => intro seen; simp [dedupeGo]
  | cons hd t ih =>
    intro seen
    unfold dedupeGo
    by_cases hs : mkey hd ∈ seen
    · rw [if_pos hs]; exact ih seen
    · rw [if_neg hs]
      obtain ⟨ihnd, ihseen⟩ := ih (mkey hd :: seen)
      constructor
      · simp only [List.map_cons, List.pairwise_cons]
        refine ⟨?_, ihnd⟩
        intro k hk hkeq
        exact ihseen k hk (hkeq ▸ List.mem_cons_self _ _)
      · intro k hk
        simp only [List.map_cons, List.mem_cons] at hk
        rcases hk with hk | hk
        · exact hk ▸ hs
        · intro hkseen
          exact ihseen k hk (List.mem_cons_of_mem _ hkseen)

theorem dedupeGo_keeps_first {pre post : List MRow} {r : MRow} :
    ∀ seen : List (String × String × String), mkey r ∉ seen →
      (∀ p ∈ pre, mkey p ≠ mkey r) → r ∈ dedupeGo seen (pre ++ r :: post) := by
  induction pre with
  | nil =>
    intro seen hseen _
    simp only [List.nil_append]
    unfold dedupeGo
    rw [if_neg hseen]
    exact List.mem_cons_self _ _
  | cons p t ih =>
    intro seen hseen hpre
    simp only [List.cons_append]
    unfold dedupeGo
    by_cases hs : mkey p ∈ seen
    · rw [if_pos hs]
      exact ih seen hseen fun q hq => hpre q (List.mem_cons_of_mem _ hq)
    · rw [if_neg hs]
      refine List.mem_cons_of_mem _ (ih (mkey p :: seen) ?_ ?_)
      · intro hmem
        rcases List.mem_cons.mp hmem with h | h
        · exact hpre p (List.mem_cons_self _ _) h.symm
        · exact hseen h
      · exact fun q hq => hpre q (List.mem_cons_of_mem _ hq)

/-! ## Lemmas about the sort order -/

theorem rowLe_trans (a b c : MRow) (hab : rowLe a b) (hbc : rowLe b c) :
    rowLe a c = true := by
  unfold rowLe at *
  exact decide_eq_true (le_trans (of_decide_eq_true hab) (of_decide_eq_true hbc))

theorem rowLe_total (a b : MRow) : rowLe a b || rowLe b a := by
  unfold rowLe
  rcases le_total (rowSortKey a) (rowSortKey b) with h | h
  · simp [decide_eq_true h]
  · simp [decide_eq_true h]

/-! ## Lemmas about `find_mcp_command` -/

theorem find_mcp_command_spec (rows : List (List String)) (nm : String)
    (h : (find_mcp_command rows nm).1 ≠ "") :
    ∃ row ∈ rows, 7 ≤ row.length ∧ row.getD 0 "" = "Command" ∧
      row.getD 3 "" = nm ∧ row.getD 1 "" ∈ MCP_SERVERS ∧
      find_mcp_command rows nm = (row.getD 1 "", row.getD 2 "", row.getD 4 "") := by
  induction rows with
  | nil => simp [find_mcp_command] at h
  | cons row rest ih =>
    unfold find_mcp_command at h ⊢
    by_cases hc : 7 ≤ row.length ∧ row.getD 0 "" = "Command" ∧ row.getD 3 "" = nm ∧
        row.getD 1 "" ∈ MCP_SERVERS
    · rw [if_pos hc] at h ⊢
      exact ⟨row, List.mem_cons_self _ _, hc.1, hc.2.1, hc.2.2.1, hc.2.2.2, rfl⟩
    · rw [if_neg hc] at h ⊢
      obtain ⟨row', hmem, hr⟩ := ih h
      exact ⟨row', List.mem_cons_of_mem _ hmem, hr⟩

theorem insertAllPairs_self {K V : Type} [DecidableEq K] {l : List (K × V)}
    (hl : (l.map Prod.fst).Pairwise (· ≠ ·)) : insertAllPairs [] l = l := by
  simpa using insertAllPairs_disjoint hl (by simp [pyKeys])

/-! ## Claims -/

/-- C1 counterexample: the claim says a candidate with empty description
merged over a prior with description "D1" keeps "D1".  In `merge_resources`
the candidate row replaces the prior row wholesale (`merged[key] = row`), so
the merged record's description is the candidate's empty string, not "D1". -/
theorem merge_resources_empty_description_not_retained :
    (merge_resources [Row.mk "Tool" "srv" "Cat" "alpha" "" "active" "p"]
        (read_existing_csv
          [toRaw (Row.mk "Tool" "srv" "Cat" "alpha" "D1" "active" "p")])).map
      Row.description ≠ ["D1"] := by decide

/-- C1 (amended): when a prior record and a new candidate share the Identity
Key, the merged record is the candidate in its entirety — every field,
empty or not, comes from the candidate; no prior field value is retained. -/
theorem merge_resources_candidate_wins_wholesale (prior cand : Row)
    (h : rowKey prior = rowKey cand) :
    merge_resources [cand] (read_existing_csv [toRaw prior]) = [cand] := by
  have step : pyInsert [(rowKey prior, prior)] (rowKey cand) cand =
      [(rowKey cand, cand)] := by
    simp only [pyInsert, if_pos h]
  show pyValues (pyInsert (pyInsert [] (rowKey prior) prior) (rowKey cand) cand) = [cand]
  rw [show pyInsert ([] : List ((String × String × String) × Row)) (rowKey prior) prior =
      [(rowKey prior, prior)] from rfl, step]
  rfl

/-- C1 witness: a concrete prior/candidate pair with equal keys, where the
candidate's non-empty description "D2" wins. -/
theorem merge_resources_candidate_wins_wholesale_witness :
    merge_resources [Row.mk "Tool" "srv" "Cat" "alpha" "D2" "active" "p"]
        (read_existing_csv
          [toRaw (Row.mk "Tool" "srv" "Cat" "alpha" "D1" "active" "q")]) =
      [Row.mk "Tool" "srv" "Cat" "alpha" "D2" "active" "p"] :=
  merge_resources_candidate_wins_wholesale _ _ (by decide)

/-- C2: identity uniqueness — no two rows of a merged table share the
Identity Key, both for `merge_csvs` (merge-and-dedupe.py, via the final
de-duplication pass) and for `merge_resources` over a prior table read by
`read_existing_csv` (update-resources-csv-old.py, via the dict keyed by
(Type, Server, Name)). -/
theorem final_tables_identity_key_unique :
    (∀ scanned old : List MRow,
      ((merge_csvs scanned old).map mkey).Pairwise (· ≠ ·)) ∧
    (∀ (extracted : List Row) (raw : List (List String)),
      ((merge_resources extracted (read_existing_csv raw)).map rowKey).Pairwise
        (· ≠ ·)) := by
  constructor
  · intro scanned old
    exact (dedupeGo_keys_nodup _ []).1
  · intro extracted raw
    have hm1nd : (pyKeys (insertAllPairs
        ([] : List ((String × String × String) × Row))
        (read_existing_csv raw))).Pairwise (· ≠ ·) :=
      pyKeys_nodup_insertAllPairs (by simp [pyKeys])
    have hm1kv : ∀ kv ∈ insertAllPairs
        ([] : List ((String × String × String) × Row)) (read_existing_csv raw),
        kv.1 = rowKey kv.2 :=
      insertAllPairs_forall (by simp) (read_existing_entries_key raw [] (by simp))
    have hm2nd : (pyKeys (insertAllPairs
        (insertAllPairs [] (read_existing_csv raw))
        (extracted.map fun r => (rowKey r, r)))).Pairwise (· ≠ ·) :=
      pyKeys_nodup_insertAllPairs hm1nd
    have hm2kv : ∀ kv ∈ insertAllPairs (insertAllPairs [] (read_existing_csv raw))
        (extracted.map fun r => (rowKey r, r)), kv.1 = rowKey kv.2 := by
      refine insertAllPairs_forall hm1kv ?_
      intro kv hkv
      simp only [List.mem_map] at hkv
      obtain ⟨r, _, rfl⟩ := hkv
      rfl
    have hmap : (pyValues (insertAllPairs (insertAllPairs [] (read_existing_csv raw))
        (extracted.map fun r => (rowKey r, r)))).map rowKey =
        pyKeys (insertAllPairs (insertAllPairs [] (read_existing_csv raw))
          (extracted.map fun r => (rowKey r, r))) := by
      unfold pyValues pyKeys
      rw [List.map_map]
      exact List.map_congr_left fun kv hkv => (hm2kv kv hkv).symm
    have key : merge_resources extracted (read_existing_csv raw) =
        pyValues (insertAllPairs (insertAllPairs [] (read_existing_csv raw))
          (extracted.map fun r => (rowKey r, r))) := by
      simp only [merge_resources]
      rw [merge_foldl_eq]
      rfl
    rw [key, hmap]
    exact hm2nd

/-- C3 counterexample: the claim says that among records sharing an Identity
Key the *later* one in iteration order is kept.  The de-duplication loop of
`merge_csvs` keeps a row only when its key is `not in seen`, so the *first*
occurrence survives: merging an old table with two same-key command rows
keeps the first (description "first"), not the second. -/
theorem merge_csvs_first_duplicate_kept :
    merge_csvs []
        [MRow.mk "Command" "x" "Cat" "/a" "first" "active" "p" "c" "u",
         MRow.mk "Command" "x" "Cat" "/a" "second" "active" "p" "c" "u"] =
      [MRow.mk "Command" "x" "Cat" "/a" "first" "active" "p" "c" "u"] ∧
    MRow.mk "Command" "x" "Cat" "/a" "first" "active" "p" "c" "u" ≠
      MRow.mk "Command" "x" "Cat" "/a" "second" "active" "p" "c" "u" := by
  constructor
  · decide
  · decide

/-- C3 (amended): in the final de-duplication pass the *earlier* record in
iteration order wins: a record none of whose predecessors shares its key is
kept, and the output never has two rows with the same key (so all later
same-key duplicates are dropped). -/
theorem dedupe_earliest_occurrence_wins (pre post : List MRow) (r : MRow)
    (h : ∀ p ∈ pre, mkey p ≠ mkey r) :
    r ∈ dedupe (pre ++ r :: post) ∧
      ((dedupe (pre ++ r :: post)).map mkey).Pairwise (· ≠ ·) :=
  ⟨dedupeGo_keeps_first [] (by simp) h, (dedupeGo_keys_nodup _ []).1⟩

/-- C3 witness: a concrete three-row list where the middle row is the first
of its key and is kept. -/
theorem dedupe_earliest_occurrence_wins_witness :
    MRow.mk "Tool" "s" "c" "n" "d" "active" "p" "x" "y" ∈
      dedupe ([MRow.mk "Command" "s" "c" "/n" "d" "active" "p" "x" "y"] ++
        MRow.mk "Tool" "s" "c" "n" "d" "active" "p" "x" "y" ::
          [MRow.mk "Tool" "s" "c" "n" "dup" "active" "p" "x" "y"]) ∧
      ((dedupe ([MRow.mk "Command" "s" "c" "/n" "d" "active" "p" "x" "y"] ++
        MRow.mk "Tool" "s" "c" "n" "d" "active" "p" "x" "y" ::
          [MRow.mk "Tool" "s" "c" "n" "dup" "active" "p" "x" "y"])).map mkey).Pairwise
        (· ≠ ·) :=
  dedupe_earliest_occurrence_wins _ _ _ (by decide)

/-- C5: idempotence — reconciling a table (with pairwise-distinct Identity
Keys, the invariant of final tables) against itself, using its own records
as the candidates and itself as the prior table, returns the table unchanged
in content and order. -/
theorem merge_resources_idempotent (T : List Row)
    (h : (T.map rowKey).Pairwise (· ≠ ·)) :
    merge_resources T (read_existing_csv (T.map toRaw)) = T := by
  have hkeys : ((T.map fun r => (rowKey r, r)).map Prod.fst).Pairwise (· ≠ ·) := by
    rw [List.map_map]
    exact h
  have hread : read_existing_csv (T.map toRaw) = T.map fun r => (rowKey r, r) := by
    unfold read_existing_csv
    rw [read_existing_foldl_map T []]
    exact insertAllPairs_self hkeys
  have key : merge_resources T (read_existing_csv (T.map toRaw)) =
      pyValues (insertAllPairs (insertAllPairs [] (read_existing_csv (T.map toRaw)))
        (T.map fun r => (rowKey r, r))) := by
    simp only [merge_resources]
    rw [merge_foldl_eq]
    rfl
  rw [key, hread, insertAllPairs_self hkeys,
    insertAllPairs_absorb hkeys fun kv hkv => hkv]
  unfold pyValues
  rw [List.map_map, show (Prod.snd ∘ fun r : Row => (rowKey r, r)) = id from rfl]
  exact List.map_id T

/-- C5 witness: a concrete two-row table with distinct keys reconciles to
itself. -/
theorem merge_resources_idempotent_witness :
    merge_resources
        [Row.mk "Tool" "s1" "c" "n1" "d1" "active" "p1",
         Row.mk "Command" "s2" "c" "/n2" "d2" "active" "p2"]
        (read_existing_csv
          ([Row.mk "Tool" "s1" "c" "n1" "d1" "active" "p1",
            Row.mk "Command" "s2" "c" "/n2" "d2" "active" "p2"].map toRaw)) =
      [Row.mk "Tool" "s1" "c" "n1" "d1" "active" "p1",
       Row.mk "Command" "s2" "c" "/n2" "d2" "active" "p2"] :=
  merge_resources_idempotent _ (by decide)

/-- C4 counterexample: the claim says any same-named Command row under a
different, non-default origin triggers the alias rule.  `find_mcp_command`
only matches origins in the fixed `MCP_SERVERS` set, so with another origin
"ci" (as in the spec's own example) the assistant row's status is left
unchanged — it is not set to `alias`. -/
theorem fix_csv_non_mcp_origin_not_aliased :
    ¬ (((fix_csv
          [["Command", "assistant", "Cat", "/build", "", "active", "p1"],
           ["Command", "ci", "Release", "/build", "desc", "active", "p2"]]
          fun _ => none).getD 0 []).getD 5 "" = "alias") := by decide

/-- C4 (amended): for a data row of Type `Command` with the default origin
`assistant` whose Name matches a well-formed Command row under one of the
configured MCP-server origins (`coderef-docs`, `coderef-personas`,
`coderef-testing`, `coderef-workflow`), the fix pass sets the row's status to
`alias`, overwrites its category with the matched row's category, and, when
its description is empty, synthesizes "Alias for <server> - <description>"
(or "Alias for <server> command" when the matched description is empty);
moreover a matching row with an MCP-server origin really exists in the data. -/
theorem fix_csv_alias_rule_mcp_servers (data : List (List String))
    (cmdfile : String → Option String) (row : List String)
    (h7 : ¬ row.length < 7) (ht : row.getD 0 "" = "Command")
    (hs : row.getD 1 "" = "assistant")
    (hm : (find_mcp_command data (row.getD 3 "")).1 ≠ "") :
    fix_row data cmdfile row =
      ["Command", "assistant", (find_mcp_command data (row.getD 3 "")).2.1,
       row.getD 3 "",
       (if row.getD 4 "" = "" then
          (if (find_mcp_command data (row.getD 3 "")).2.2 ≠ "" then
             "Alias for " ++ (find_mcp_command data (row.getD 3 "")).1 ++ " - " ++
               (find_mcp_command data (row.getD 3 "")).2.2
           else "Alias for " ++ (find_mcp_command data (row.getD 3 "")).1 ++
             " command")
        else row.getD 4 ""),
       "alias", row.getD 6 ""] ∧
    ∃ drow ∈ data, 7 ≤ drow.length ∧ drow.getD 0 "" = "Command" ∧
      drow.getD 3 "" = row.getD 3 "" ∧ drow.getD 1 "" ∈ MCP_SERVERS ∧
      find_mcp_command data (row.getD 3 "") =
        (drow.getD 1 "", drow.getD 2 "", drow.getD 4 "") := by
  constructor
  · unfold fix_row
    rw [if_neg h7, if_pos ⟨ht, hs⟩, if_pos hm, ht, hs]
  · exact find_mcp_command_spec data _ hm

/-- C4 witness: concrete data where `/gen` exists under `assistant` (empty
description) and under `coderef-docs`; the assistant row becomes an alias
with the synthesized description and the MCP row's category. -/
theorem fix_csv_alias_rule_mcp_servers_witness :
    fix_row
        [["Command", "assistant", "Cat", "/gen", "", "active", "p1"],
         ["Command", "coderef-docs", "Documentation", "/gen", "Generate docs",
          "active", "p2"]]
        (fun _ => none)
        ["Command", "assistant", "Cat", "/gen", "", "active", "p1"] =
      ["Command", "assistant", "Documentation", "/gen",
       "Alias for coderef-docs - Generate docs", "alias", "p1"] := by
  have h := fix_csv_alias_rule_mcp_servers
    [["Command", "assistant", "Cat", "/gen", "", "active", "p1"],
     ["Command", "coderef-docs", "Documentation", "/gen", "Generate docs",
      "active", "p2"]]
    (fun _ => none)
    ["Command", "assistant", "Cat", "/gen", "", "active", "p1"]
    (by decide) (by decide) (by decide) (by decide)
  rw [h.1]
  decide

/-- C6 counterexample: the claim says the fallback chain is applied to
`created` and `updated` independently.  In `ResourceScanner.add_resource`,
when the git query yields no creation date but does yield an update date
(e.g. a renamed file with no recorded `A` status), *both* fields are replaced
by the filesystem pair, discarding git's update date. -/
theorem add_resource_fallback_not_independent :
    add_resource_timestamps
        ⟨none, some "2024-06-01T00:00:00+00:00", "FS-CREATED", "FS-UPDATED"⟩ =
      ("FS-CREATED", "FS-UPDATED") ∧
    ("FS-UPDATED" : String) ≠ "2024-06-01T00:00:00+00:00" := by decide

/-- C6 (amended): `TimestampExtractor.get_timestamps` applies the fallback
chain to the two fields independently (`updated` depends only on the git
update query and the filesystem, and with no git history and no front-matter
date the result is exactly the filesystem pair, hence never null), while
`ResourceScanner.add_resource` falls back to the filesystem for *both* fields
as soon as either git field is missing or empty. -/
theorem timestamp_fallback_chain :
    (∀ env : TsEnv,
      (get_timestamps env).2 =
        if truthy env.gitUpdated then env.gitUpdated.getD "" else env.fsUpdated) ∧
    (∀ env : TsEnv, env.gitCreated = none → env.yamlDate = none →
      env.gitUpdated = none →
      get_timestamps env = (env.fsCreated, env.fsUpdated)) ∧
    (∀ env : SotEnv,
      truthy env.gitCreated = false ∨ truthy env.gitUpdated = false →
      add_resource_timestamps env = (env.fsCreated, env.fsUpdated)) := by
  refine ⟨?_, ?_, ?_⟩
  · intro env
    unfold get_timestamps
    by_cases hu : truthy env.gitUpdated
    · simp [hu]
    · simp [hu]
  · intro env hc hy hu
    unfold get_timestamps
    simp [hc, hy, hu, truthy]
  · intro env h
    unfold add_resource_timestamps
    rcases h with h | h <;> simp [h]

/-- C6 witness: with no git answers and no front-matter date the resolver
returns the filesystem pair, and `add_resource` with a partial git answer
returns the filesystem pair. -/
theorem timestamp_fallback_chain_witness :
    get_timestamps ⟨none, none, none, "FC", "FU"⟩ = ("FC", "FU") ∧
    add_resource_timestamps ⟨none, some "G", "FC2", "FU2"⟩ = ("FC2", "FU2") :=
  ⟨timestamp_fallback_chain.2.1 _ rfl rfl rfl,
   timestamp_fallback_chain.2.2 _ (Or.inl rfl)⟩

/-- C7: output ordering — the sort performed by all three table writers
(`merge-and-dedupe.py write_csv`, `update-resources-csv.py generate_csv`,
`build-source-of-truth.py write_csv`) yields a list that ascends in the
lexicographic, case-sensitive order on the key tuple
(Type, Server, Category, Name). -/
theorem write_csv_output_sorted :
    (∀ rows : List MRow,
      (mad_write_csv_rows rows).Pairwise fun a b => rowSortKey a ≤ rowSortKey b) ∧
    (∀ rows : List MRow,
      (v2_generate_csv_rows rows).Pairwise fun a b => rowSortKey a ≤ rowSortKey b) ∧
    (∀ rows : List MRow,
      (sot_write_csv_rows rows).Pairwise fun a b => rowSortKey a ≤ rowSortKey b) := by
  have hs : ∀ rows : List MRow,
      (rows.mergeSort rowLe).Pairwise fun a b => rowSortKey a ≤ rowSortKey b := by
    intro rows
    have hp := List.sorted_mergeSort rowLe_trans rowLe_total rows
    exact hp.imp fun h => of_decide_eq_true h
  exact ⟨hs, hs, hs⟩

/-- C8 counterexample: the claim says rows with too few fields are dropped
from the reconciliation output.  The `fix_csv` loop appends such rows to
`fixed_rows` unchanged (and records no warning), so a 2-field row appears in
the output. -/
theorem fix_csv_short_row_not_dropped :
    ["x", "y"] ∈ fix_csv [["x", "y"]] fun _ => none := by decide

/-- C8 (amended): a row with the wrong field count never aborts
reconciliation, but it is not "dropped with a recorded warning": the
`fix_csv` pass passes rows with fewer than 7 fields through to the output
unchanged, and `read_existing_csv` silently skips rows whose length is not
exactly 7 (reading only the length-7 rows), recording no per-row warning in
either case. -/
theorem malformed_rows_never_fatal :
    (∀ (data : List (List String)) (cmdfile : String → Option String)
      (row : List String), row ∈ data → row.length < 7 →
      row ∈ fix_csv data cmdfile) ∧
    (∀ raw : List (List String),
      read_existing_csv raw =
        read_existing_csv (raw.filter fun r => r.length == 7)) := by
  constructor
  · intro data cmdfile row hmem hlen
    have : fix_row data cmdfile row = row := by
      unfold fix_row
      rw [if_pos hlen]
    unfold fix_csv
    exact this ▸ List.mem_map_of_mem (fix_row data cmdfile) hmem
  · intro raw
    unfold read_existing_csv
    generalize ([] : List ((String × String × String) × Row)) = d
    induction raw generalizing d with
    | nil => rfl
    | cons r t ih =>
      by_cases h7 : r.length = 7
      · have : (r.length == 7) = true := by simp [h7]
        simp only [List.filter_cons, this, List.foldl_cons]
        exact ih _
      · have : (r.length == 7) = false := by simp [h7]
        simp only [List.filter_cons, this, List.foldl_cons]
        rw [show read_existing_step d r = d from by unfold read_existing_step; rw [if_neg h7]]
        exact ih _

/-- C8 witness: a concrete short row survives the fix pass alongside a
well-formed row. -/
theorem malformed_rows_never_fatal_witness :
    ["x", "y"] ∈ fix_csv
        [["x", "y"],
         ["Tool", "srv", "Cat", "alpha", "D", "active", "p"]]
        fun _ => none :=
  malformed_rows_never_fatal.1 _ _ _ (by decide) (by decide)

/-- C9 counterexample: the claim says an out-of-band row count yields only a
warning and never a non-zero exit.  For a one-row table every other check
passes, yet `_check_row_count` appends to `self.errors`, `validate()`
returns `False`, and `main --validate` exits with status 1. -/
theorem row_count_error_forces_failure :
    main_validate_code true [Row.mk "Tool" "s" "c" "n" "d" "active" "p"] = 1 ∧
    check_column_count [Row.mk "Tool" "s" "c" "n" "d" "active" "p"] = [] ∧
    check_duplicates [Row.mk "Tool" "s" "c" "n" "d" "active" "p"] = [] ∧
    check_valid_types [Row.mk "Tool" "s" "c" "n" "d" "active" "p"] = [] ∧
    check_valid_status [Row.mk "Tool" "s" "c" "n" "d" "active" "p"] = [] := by
  decide

/-- C9 (amended): the row-count check contributes errors exactly like the
other validator checks: for any table whose other four checks pass but whose
row count (including the header) lies outside the accepted band [185, 335],
`validate()` returns `False` and a validation-requested run exits with
status 1. -/
theorem row_count_out_of_band_fails_validation (resources : List Row)
    (h1 : check_column_count resources = [])
    (h2 : check_duplicates resources = [])
    (h3 : check_valid_types resources = [])
    (h4 : check_valid_status resources = [])
    (h5 : resources.length + 1 < 185 ∨ resources.length + 1 > 335) :
    validate resources = false ∧ main_validate_code true resources = 1 := by
  have herr : check_row_count resources ≠ [] := by
    unfold check_row_count
    rcases h5 with h | h
    · rw [if_pos (by omega)]
      simp
    · rw [if_neg (by omega), if_pos (by omega)]
      simp
  have hv : validate resources = false := by
    unfold validate validate_errors
    rw [h1, h2, h3, h4]
    simp only [List.nil_append]
    cases hcr : check_row_count resources with
    | nil => exact absurd hcr herr
    | cons a t => simp
  refine ⟨hv, ?_⟩
  unfold main_validate_code
  rw [hv]
  rfl

/-- C9 witness: the one-row table from the counterexample satisfies the
hypotheses and fails validation. -/
theorem row_count_out_of_band_fails_validation_witness :
    validate [Row.mk "Tool" "s" "c" "n" "d" "active" "p"] = false ∧
      main_validate_code true [Row.mk "Tool" "s" "c" "n" "d" "active" "p"] = 1 :=
  row_count_out_of_band_fails_validation _ (by decide) (by decide) (by decide)
    (by decide) (Or.inl (by decide))

/-- C10: in `merge_csvs` every Command-typed row of the scanned candidate set
is discarded (the filtering loop keeps no Command rows at all), so every
Command row of the merged output originates from the old table. -/
theorem merged_command_rows_from_old_only :
    (∀ scanned mcp : List MRow, ∀ r ∈ scanned_filtered scanned mcp,
      r.type ≠ "Command") ∧
    (∀ scanned old : List MRow, ∀ r ∈ merge_csvs scanned old,
      r.type = "Command" → r ∈ old) := by
  have hsf : ∀ scanned mcp : List MRow, ∀ r ∈ scanned_filtered scanned mcp,
      r.type ≠ "Command" := by
    intro scanned mcp r hr heq
    unfold scanned_filtered at hr
    rw [List.mem_filter] at hr
    have hb := hr.2
    simp only [Bool.and_eq_true, Bool.not_eq_true'] at hb
    have : (r.type == "Command") = false := hb.2
    rw [heq] at this
    simp at this
  refine ⟨hsf, ?_⟩
  intro scanned old r hr hcmd
  have hmem := mem_of_mem_dedupeGo hr
  rw [List.mem_append, List.mem_append] at hmem
  rcases hmem with (h | h) | h
  · unfold tools_from_old at h
    rw [List.mem_filter] at h
    have := h.2
    rw [hcmd] at this
    simp at this
  · unfold mcp_commands_from_old at h
    rw [List.mem_filter] at h
    exact h.1
  · exact absurd hcmd (hsf _ _ r h)

/-- C10 witness: a Tool row survives the scanned filter (and is not a
Command), and a Command row of the merged output is found in the old table. -/
theorem merged_command_rows_from_old_only_witness :
    (MRow.mk "Tool" "s" "c" "n" "d" "active" "p" "x" "y").type ≠ "Command" ∧
    MRow.mk "Command" "coderef-docs" "Doc" "/x" "d" "active" "p" "c" "u" ∈
      [MRow.mk "Command" "coderef-docs" "Doc" "/x" "d" "active" "p" "c" "u"] :=
  ⟨merged_command_rows_from_old_only.1
      [MRow.mk "Tool" "s" "c" "n" "d" "active" "p" "x" "y"] [] _ (by decide),
   merged_command_rows_from_old_only.2 []
      [MRow.mk "Command" "coderef-docs" "Doc" "/x" "d" "active" "p" "c" "u"] _
      (by decide) (by decide)⟩

end Dashboard
